import Mathlib

/-!
Verification of `progenitor_fixes.py` (near-openapi-client-rs build tool).

The tool has two passes: a Spec Normalizer over a JSON schema document
(rename `anyOf` to `oneOf` under one named entry; expand `allOf` nodes whose
elements carry `oneOf` into a Cartesian-product `oneOf`), and a Source
Splitter over a generated source buffer (anchor-based slicing, derive-list
augmentation, readme extraction).  Python values are modelled by the `Json`
tree below; Python `dict` insertion-order semantics are modelled by
association lists (keys are unique in any document produced by `json.load`).
Unhandled Python exceptions (KeyError, TypeError, ValueError) are modelled by
`Except Unit`.  The recursive walk `iterate_nested_json_for_loop` recurses
into freshly rewritten content, so it is embedded with an explicit fuel
parameter; every theorem below supplies fuel exceeding the recursion depth of
the documents it touches.
-/

namespace ProgenitorFixes

set_option maxRecDepth 10000

/-- JSON value trees, as produced by Python's `json.load`.  Objects keep
insertion order, matching Python dicts. -/
inductive Json where
  | null : Json
  | bool : Bool → Json
  | num : Int → Json
  | str : String → Json
  | arr : List Json → Json
  | obj : List (String × Json) → Json

/-- Value of a key in a Python dict (first binding; dict keys are unique). -/
def lookupKey (k : String) (kvs : List (String × Json)) : Option Json :=
  (kvs.find? (fun kv => kv.1 == k)).map (fun kv => kv.2)

/-- `k in d` for a Python dict. -/
def hasKey (k : String) (kvs : List (String × Json)) : Bool :=
  kvs.any (fun kv => kv.1 == k)

/-- `d.pop(k)`'s effect on the bindings: the key is removed (in a Python dict
the key occurs at most once, so removing every binding is the same). -/
def eraseKey (k : String) (kvs : List (String × Json)) : List (String × Json) :=
  kvs.filter (fun kv => kv.1 != k)

/-- `d[k] = v` for a Python dict: an existing key keeps its position and gets
the new value, a fresh key is appended at the end (insertion order). -/
def setKey (k : String) (v : Json) : List (String × Json) → List (String × Json)
  | [] => [(k, v)]
  | kv :: rest => if kv.1 == k then (k, v) :: rest else kv :: setKey k v rest

/-- Python `str.find`: index of the first occurrence of `needle` in `hay`,
`-1` when absent. -/
def findSub (needle hay : List Char) : Int :=
  match (List.range (hay.length + 1)).find? (fun i => needle.isPrefixOf (hay.drop i)) with
  | some i => (i : Int)
  | none => -1

/-- Python substring test `needle in hay` on strings. -/
def substrB (needle hay : List Char) : Bool :=
  !(findSub needle hay == -1)

/-- Python iteration `for item in j`: a list yields its elements, a dict its
keys, a string its characters (as one-character strings).  Iterating a
number, boolean or `None` raises TypeError in Python; no verified property
depends on that case and it is modelled as an empty iteration. -/
def pyElems : Json → List Json
  | .arr l => l
  | .obj kvs => kvs.map (fun kv => Json.str kv.1)
  | .str s => s.data.map (fun c => Json.str (String.mk [c]))
  | _ => []

/-- Python membership `needle in item` as used at `'oneOf' in item`: key test
for a dict, element test for a list, substring test for a string.  On a
number, boolean or `None` Python raises TypeError; no verified property
depends on that case and it is modelled as `false`. -/
def pyContains (needle : String) : Json → Bool
  | .obj kvs => hasKey needle kvs
  | .arr l => l.any (fun x => match x with | .str s => s == needle | _ => false)
  | .str s => substrB needle.data s.data
  | _ => false

/-- `item["oneOf"]` as read inside `reconstructAllOfOneOf`.  The call site
guards with `"oneOf" in item`; subscripting a non-dict by a string raises
TypeError in Python and is modelled as `null` (unreachable under the
theorems' hypotheses). -/
def pyGetOneOf : Json → Json
  | .obj ikvs => (lookupKey "oneOf" ikvs).getD Json.null
  | _ => Json.null

/-- `itertools.product(*lists)`: all combinations, one element from each
list, rightmost varying fastest (so the order matches Python's). -/
def listProd : List (List Json) → List (List Json)
  | [] => [[]]
  | l :: ls => l.flatMap (fun x => (listProd ls).map (fun c => x :: c))

/-- `reconstructAllOfOneOf(schema)` from `progenitor_fixes.py` (lines 7-35),
acting on the bindings of the schema object.  Each element of `allOf` that
contains `oneOf` contributes its `oneOf` list, any other element contributes
itself as a singleton; the Cartesian product of those lists becomes the new
`oneOf` (each combination wrapped as `{"allOf": [...]}`), and the `allOf` key
is popped. -/
def reconstructAllOfOneOf (kvs : List (String × Json)) : List (String × Json) :=
  let all_of := pyElems ((lookupKey "allOf" kvs).getD Json.null)
  let one_of_lists := all_of.map
    (fun item => if pyContains "oneOf" item then pyElems (pyGetOneOf item) else [item])
  let combinations := listProd one_of_lists
  let new_one_of := combinations.map (fun combo => Json.obj [("allOf", Json.arr combo)])
  setKey "oneOf" (Json.arr new_one_of) (eraseKey "allOf" kvs)

/-- Number of `allOf` elements containing `oneOf` (the `oneOfs` counter of
`iterate_nested_json_for_loop`); `0` when the node has no `allOf` key. -/
def countOneOfs (kvs : List (String × Json)) : Nat :=
  match lookupKey "allOf" kvs with
  | some v => (pyElems v).countP (fun item => pyContains "oneOf" item)
  | none => 0

/-- `iterate_nested_json_for_loop(json_obj)` from `progenitor_fixes.py`
(lines 37-50), with explicit fuel.  At a dict the node is first rewritten in
place when it has an `allOf` with at least two `oneOf`-bearing elements, and
the walk then recurses into the values of the *rewritten* dict (Python's
`for key, value in json_obj.items()` runs after `reconstructAllOfOneOf`
mutated `json_obj`); at a list it recurses into the elements; scalars are
left unchanged.  Fuel only bounds the recursion depth: every theorem below
supplies more fuel than the depth of the documents involved, where the
Python original recurses without bound (it terminates on any finite
acyclic document). -/
def iterate_nested_json_for_loop (fuel : Nat) (j : Json) : Json :=
  match j, fuel with
  | .obj kvs, f + 1 =>
      let kvs' := if hasKey "allOf" kvs && decide (2 ≤ countOneOfs kvs) then
          reconstructAllOfOneOf kvs
        else kvs
      Json.obj (kvs'.map (fun kv => (kv.1, iterate_nested_json_for_loop f kv.2)))
  | .arr l, f + 1 => Json.arr (l.map (fun x => iterate_nested_json_for_loop f x))
  | j, _ => j

/-- Lookup of `spec['components']['schemas']['GlobalContractIdentifierView']`
as an `Option`: `none` when any step would raise in Python (missing key, or a
non-dict on the path). -/
def gcivLookup (spec : Json) : Option Json :=
  match spec with
  | .obj skvs =>
    match lookupKey "components" skvs with
    | some (.obj ckvs) =>
      match lookupKey "schemas" ckvs with
      | some (.obj hkvs) => lookupKey "GlobalContractIdentifierView" hkvs
      | _ => none
    | _ => none
  | _ => none

/-- Replace the `GlobalContractIdentifierView` entry by `g'`, keeping every
other binding: the model of mutating that dict entry in place.  Falls back to
`spec` when the path is absent (never reached: callers establish the path
through `gcivLookup`). -/
def gcivUpdate (spec g' : Json) : Json :=
  match spec with
  | .obj skvs =>
    match lookupKey "components" skvs with
    | some (.obj ckvs) =>
      match lookupKey "schemas" ckvs with
      | some (.obj hkvs) =>
          Json.obj (setKey "components"
            (Json.obj (setKey "schemas"
              (Json.obj (setKey "GlobalContractIdentifierView" g' hkvs)) ckvs)) skvs)
      | _ => spec
    | _ => spec
  | _ => spec

/-- Lines 56-57 of `progenitor_fixes.py`: if the
`GlobalContractIdentifierView` entry contains `anyOf`, move that value to
`oneOf` (`d['oneOf'] = d.pop('anyOf')`).  A missing path raises KeyError, a
non-dict on the path (or a non-dict entry passing the membership test)
raises TypeError/AttributeError; both are modelled by `Except.error`. -/
def renameGciv (spec : Json) : Except Unit Json :=
  match gcivLookup spec with
  | none => .error ()
  | some g =>
    match g with
    | .obj gkvs =>
      match lookupKey "anyOf" gkvs with
      | some v => .ok (gcivUpdate spec (Json.obj (setKey "oneOf" v (eraseKey "anyOf" gkvs))))
      | none => .ok spec
    | .arr l => if pyContains "anyOf" (.arr l) then .error () else .ok spec
    | .str s => if pyContains "anyOf" (.str s) then .error () else .ok spec
    | _ => .error ()

/-- `len(sys.argv) == 2 and sys.argv[1] == '--spec-fix'` (line 61). -/
def specFixMode (argv : List String) : Bool :=
  match argv with
  | [_, flag] => flag == "--spec-fix"
  | _ => false

/-- `len(sys.argv) == 2 and sys.argv[1] == '--lib-fix'` (line 69). -/
def libFixMode (argv : List String) : Bool :=
  match argv with
  | [_, flag] => flag == "--lib-fix"
  | _ => false

/-- Outcome of the unconditional part of the script (lines 54-67): the
document written back to `openapi.json`, the indentation passed to
`json.dump`, and which optional passes ran. -/
structure RunResult where
  dumped : Json
  dumpIndent : Nat
  walkRan : Bool
  splitRan : Bool

/-- Top-level flow of `progenitor_fixes.py` (lines 52-69): load, rename the
`GlobalContractIdentifierView` union key (unconditionally; an exception here
terminates the script before anything is written), run the expansion walk
when the single flag is `--spec-fix`, dump the document with `indent=4`, and
run the Source Splitter afterwards when the single flag is `--lib-fix`. -/
def runMain (argv : List String) (fuel : Nat) (spec : Json) : Except Unit RunResult :=
  match renameGciv spec with
  | .error e => .error e
  | .ok spec1 =>
    let spec2 := if specFixMode argv then iterate_nested_json_for_loop fuel spec1 else spec1
    .ok ⟨spec2, 4, specFixMode argv, libFixMode argv⟩

/-- Ordered events of one run of the script. -/
inductive MainEv where
  | rename : MainEv
  | walk : MainEv
  | dump : MainEv
  | split : MainEv
deriving DecidableEq

/-- The order in which the script's steps execute for a given `sys.argv`
(lines 54-69): rename first, then the expansion walk under `--spec-fix`,
then the dump back to `openapi.json`, then the Source Splitter under
`--lib-fix`. -/
def mainTrace (argv : List String) : List MainEv :=
  [MainEv.rename]
    ++ (if specFixMode argv then [MainEv.walk] else [])
    ++ [MainEv.dump]
    ++ (if libFixMode argv then [MainEv.split] else [])

/-- Position of the first occurrence of an event in a trace (length of the
trace when absent). -/
def evPos (e : MainEv) (tr : List MainEv) : Nat :=
  tr.findIdx (fun x => x == e)

/-- First anchor of the Source Splitter (lines 74-76): start of the generated
`types` module. -/
def typesStartAnchor : String :=
  "#[doc = r\" Types used as operation parameters and responses.\"]\n#[allow(clippy::all)]\npub mod types \x7b"

/-- Second anchor of the Source Splitter (lines 78-79): start of the
generated client struct. -/
def clientStartAnchor : String :=
  "#[derive(Clone, Debug)]\n#[doc = \"Client for NEAR Protocol JSON RPC API"

/-- Effective bound of a Python slice index for a sequence of length `len`:
negative indices count from the end, and bounds are clamped to
`[0, len]`. -/
def pyIdx (len : Nat) (i : Int) : Nat :=
  if i < 0 then ((len : Int) + i).toNat else min i.toNat len

/-- Python slice `l[a:b]`. -/
def pySlice (l : List Char) (a b : Int) : List Char :=
  (l.take (pyIdx l.length b)).drop (pyIdx l.length a)

/-- Initial slicing of the Source Splitter (lines 77-85):
`dependencies = lib_rs[:types_index]`, `types = lib_rs[types_index:client_index]`,
`client = lib_rs[client_index:]`, with both indices produced by `str.find`
(`-1` when the anchor is absent — Python raises nothing, the slices are just
taken with the sentinel). -/
def splitLib (buf : List Char) : List Char × List Char × List Char :=
  let types_index := findSub typesStartAnchor.data buf
  let client_index := findSub clientStartAnchor.data buf
  (pySlice buf 0 types_index,
   pySlice buf types_index client_index,
   pySlice buf client_index (buf.length : Int))

/-- Python `str.rstrip()`: drop trailing whitespace. -/
def rstripWS (s : String) : String :=
  String.mk ((s.data.reverse.dropWhile Char.isWhitespace).reverse)

/-- Python `str.rstrip(',')`: drop trailing commas. -/
def rstripComma (s : String) : String :=
  String.mk ((s.data.reverse.dropWhile (fun c => c == ',')).reverse)

/-- ASCII model of the regex word character class used by
`re.findall(r'impl ::std::fmt::Display for (\\w+)', types)`. -/
def isWordChar (c : Char) : Bool :=
  c.isAlphanum || c == '_'

/-- Left-to-right regex scan: at each position try to match the literal
prefix followed by at least one word character (the `(\\w+)` group, taken
maximally); on success record the group and continue after the whole match,
otherwise advance one character.  This is `re.findall`'s non-overlapping
semantics.  The fuel is the remaining buffer length (the scan advances at
least one character per step). -/
def displayNamesAux (pre : List Char) : Nat → List Char → List String
  | 0, _ => []
  | _ + 1, [] => []
  | f + 1, c :: rest =>
    if pre.isPrefixOf (c :: rest) then
      let after := (c :: rest).drop pre.length
      let name := after.takeWhile isWordChar
      if name = [] then displayNamesAux pre f rest
      else String.mk name :: displayNamesAux pre f (after.drop name.length)
    else displayNamesAux pre f rest

/-- Model of `re.findall(r'impl ::std::fmt::Display for (\\w+)', types)`
(line 110): the maximal word-character run after each occurrence of the
literal prefix, occurrences taken non-overlapping left to right; an
occurrence not followed by at least one word character is not a match. -/
def findDisplayNames (s : String) : List String :=
  displayNamesAux "impl ::std::fmt::Display for ".data s.data.length s.data

/-- `add_error_derives(m)` from `progenitor_fixes.py` (lines 112-122), as a
function of the match's groups: `g0` is the whole match `m.group(0)`, `g1`
the derive list, `g2` and `g3` the attribute/whitespace groups, `g4` the
enum name.  Names starting with `JsonRpcResponseFor` are left unchanged;
otherwise `thiserror::Error` is appended to the stripped derive list, and
`strum_macros::Display` as well unless the name was found by the Display
scan over the buffer. -/
def add_error_derives (types_with_display : List String) (g0 g1 g2 g3 g4 : String) : String :=
  if g4.startsWith "JsonRpcResponseFor" then g0
  else
    let derives := rstripComma (rstripWS g1)
    let new_derives :=
      if types_with_display.contains g4 then derives ++ ", thiserror::Error"
      else derives ++ ", thiserror::Error, strum_macros::Display"
    "#[derive(" ++ new_derives ++ ")]" ++ g2 ++ g3 ++ "pub enum " ++ g4

/-- `p` occurs as a substring of `s`. -/
def SubStr (p s : String) : Prop :=
  ∃ l r, s = l ++ p ++ r

/-- The marker line of the readme extraction (line 147), exactly as
`readlines` yields it (trailing newline included). -/
def markerLine : String := "### Generate libraries and test:\n"

/-- Python `list.index(x)`: index of the first occurrence, ValueError (here
`Except.error`) when absent. -/
def pyListIndex (x : String) : List String → Except Unit Nat
  | [] => .error ()
  | y :: ys =>
    if y == x then .ok 0 else
      match pyListIndex x ys with
      | .ok n => .ok (n + 1)
      | .error e => .error e

/-- Lines 146-149 of `progenitor_fixes.py`: take the readme lines strictly
before the first marker line, give each the `//!` doc prefix, join the
result with newlines and prepend it to the client source.  A readme without
the marker line raises ValueError in `list.index`, terminating the
script. -/
def prependClientDocs (lines : List String) (clientLib : String) : Except Unit String :=
  match pyListIndex markerLine lines with
  | .ok i =>
      .ok (String.intercalate "\n" ((lines.take i).map (fun l => "//!" ++ l)) ++ clientLib)
  | .error e => .error e

/-- Keys of a top-level object node (observation used to separate concrete
documents). -/
def topKeys : Json → List String
  | .obj kvs => kvs.map (fun kv => kv.1)
  | _ => []

/-- Whether the top-level node is a "conflicting" node in the walker's sense:
a dict with an `allOf` whose elements include at least two `oneOf`-bearing
ones. -/
def rootConflict : Json → Bool
  | .obj kvs => hasKey "allOf" kvs && decide (2 ≤ countOneOfs kvs)
  | _ => false

/-- First entry of the top-level `oneOf` list (observation used to separate
concrete documents). -/
def firstOneOfEntry (j : Json) : Json :=
  match j with
  | .obj kvs =>
    match lookupKey "oneOf" kvs with
    | some (.arr (e :: _)) => e
    | _ => Json.null
  | _ => Json.null

/-- The spec's worked example input
`{"allOf":[{"oneOf":[{"type":"A"}]},{"oneOf":[{"type":"B"},{"type":"C"}]}]}`,
as the bindings of the node. -/
def exampleKvs : List (String × Json) :=
  [("allOf", Json.arr
    [Json.obj [("oneOf", Json.arr [Json.obj [("type", Json.str "A")]])],
     Json.obj [("oneOf", Json.arr
       [Json.obj [("type", Json.str "B")], Json.obj [("type", Json.str "C")]])]])]

/-- The spec's worked example output
`{"oneOf":[{"allOf":[{"type":"A"},{"type":"B"}]},{"allOf":[{"type":"A"},{"type":"C"}]}]}`. -/
def exampleOutKvs : List (String × Json) :=
  [("oneOf", Json.arr
    [Json.obj [("allOf", Json.arr
       [Json.obj [("type", Json.str "A")], Json.obj [("type", Json.str "B")]])],
     Json.obj [("allOf", Json.arr
       [Json.obj [("type", Json.str "A")], Json.obj [("type", Json.str "C")]])]])]

/-- A document on which the walk is not idempotent: the root's `allOf` has
one `oneOf`-bearing element and one nested `allOf` element; the nested
element is only rewritten after the root was already inspected, which gives
the root a second `oneOf`-bearing element that only a second walk expands. -/
def nonIdemDoc : Json :=
  Json.obj [("allOf", Json.arr
    [Json.obj [("oneOf", Json.arr [Json.obj [("type", Json.str "A")]])],
     Json.obj [("allOf", Json.arr
       [Json.obj [("oneOf", Json.arr [Json.obj [("type", Json.str "B")]])],
        Json.obj [("oneOf", Json.arr [Json.obj [("type", Json.str "C")]])]])]])]

/-- One walk over `nonIdemDoc`: the nested `allOf` was expanded, the root was
not (its second `oneOf`-bearing element appeared only after the root's own
check), so the root is still a conflicting node. -/
def nonIdemAfterOne : Json :=
  Json.obj [("allOf", Json.arr
    [Json.obj [("oneOf", Json.arr [Json.obj [("type", Json.str "A")]])],
     Json.obj [("oneOf", Json.arr
       [Json.obj [("allOf", Json.arr
         [Json.obj [("type", Json.str "B")], Json.obj [("type", Json.str "C")]])]])]])]

/-- A document whose expansion at the root builds a combination entry that is
itself a conflicting node: both alternatives chosen for the only combination
carry `oneOf`. -/
def nestedConflictDoc (a b : String) : Json :=
  Json.obj [("allOf", Json.arr
    [Json.obj [("oneOf", Json.arr [Json.obj [("oneOf", Json.arr [Json.obj [("type", Json.str a)]])]])],
     Json.obj [("oneOf", Json.arr [Json.obj [("oneOf", Json.arr [Json.obj [("type", Json.str b)]])]])]])]

/-- What one walk actually produces on `nestedConflictDoc`: the root is
rewritten, the walk then descends into the freshly built `oneOf` list and
expands the new combination entry as well, in the same pass. -/
def nestedConflictExpanded (a b : String) : Json :=
  Json.obj [("oneOf", Json.arr
    [Json.obj [("oneOf", Json.arr
      [Json.obj [("allOf", Json.arr
        [Json.obj [("type", Json.str a)], Json.obj [("type", Json.str b)]])]])]])]

/-- What one walk would produce on `nestedConflictDoc "a" "b"` if, as the
claim states, it did not descend into the newly produced `oneOf` list: the
combination entry would keep its conflicting `allOf`. -/
def nestedConflictClaimOut : Json :=
  Json.obj [("oneOf", Json.arr
    [Json.obj [("allOf", Json.arr
      [Json.obj [("oneOf", Json.arr [Json.obj [("type", Json.str "a")]])],
       Json.obj [("oneOf", Json.arr [Json.obj [("type", Json.str "b")]])]])]])]

/-- A schema document carrying the `GlobalContractIdentifierView` entry with
an `anyOf` union (witness input for the rename). -/
def gcivSpecIn : Json :=
  Json.obj [("components", Json.obj [("schemas", Json.obj
    [("GlobalContractIdentifierView", Json.obj
      [("anyOf", Json.arr [Json.obj [("type", Json.str "a")]])])])])]

/-- `gcivSpecIn` after the rename: same array value, now under `oneOf`. -/
def gcivSpecOut : Json :=
  Json.obj [("components", Json.obj [("schemas", Json.obj
    [("GlobalContractIdentifierView", Json.obj
      [("oneOf", Json.arr [Json.obj [("type", Json.str "a")]])])])])]

/-- A buffer containing both splitter anchors back to back (witness input for
the slicing). -/
def anchorDemoBuf : List Char :=
  (typesStartAnchor ++ clientStartAnchor).data

/-- A buffer containing neither splitter anchor (witness input for the
missing-anchor behaviour). -/
def noAnchorBuf : List Char :=
  "fn main() void".data

/-! ## Association-list lemmas -/

theorem lookup_setKey_self (k : String) (v : Json) (kvs : List (String × Json)) :
    lookupKey k (setKey k v kvs) = some v := by
  induction kvs with
  | nil => simp [setKey, lookupKey]
  | cons kv rest ih =>
    by_cases h : kv.1 == k
    · simp [setKey, h, lookupKey]
    · simp only [setKey, h, Bool.false_eq_true, if_false]
      simpa [lookupKey, List.find?_cons, h] using ih

theorem lookup_setKey_ne (k k' : String) (v : Json) (kvs : List (String × Json))
    (hne : k' ≠ k) : lookupKey k' (setKey k v kvs) = lookupKey k' kvs := by
  induction kvs with
  | nil => simp [setKey, lookupKey, List.find?_cons, Ne.symm hne]
  | cons kv rest ih =>
    by_cases h : kv.1 == k
    · have h1 : kv.1 = k := by simpa using h
      simp [setKey, h, lookupKey, List.find?_cons, Ne.symm hne, h1]
    · simp only [setKey, h, Bool.false_eq_true, if_false]
      by_cases h2 : kv.1 == k'
      · simp [lookupKey, List.find?_cons, h2]
      · simpa [lookupKey, List.find?_cons, h2] using ih

theorem lookup_erase_self (k : String) (kvs : List (String × Json)) :
    lookupKey k (eraseKey k kvs) = none := by
  induction kvs with
  | nil => rfl
  | cons kv rest ih =>
    show lookupKey k (List.filter (fun kv => kv.1 != k) (kv :: rest)) = none
    rw [List.filter_cons]
    by_cases h : kv.1 = k
    · simp only [h, bne_self_eq_false, Bool.false_eq_true, if_false]
      exact ih
    · have hb : (kv.1 != k) = true := by simpa using h
      have hbeq : (kv.1 == k) = false := by simpa using h
      rw [hb, if_pos rfl]
      simp only [lookupKey, List.find?_cons, hbeq]
      exact ih

theorem lookup_none_iff_hasKey_false (k : String) (kvs : List (String × Json)) :
    lookupKey k kvs = none ↔ hasKey k kvs = false := by
  simp [lookupKey, hasKey, Option.map_eq_none', List.find?_eq_none, List.any_eq_false]

/-! ## Cartesian-product lemmas -/

theorem listProd_length (ls : List (List Json)) :
    (listProd ls).length = (ls.map List.length).prod := by
  induction ls with
  | nil => rfl
  | cons l ls ih =>
    rw [listProd, List.length_flatMap]
    have hconst : (List.length ∘ fun x : Json => (listProd ls).map (fun c => x :: c))
        = fun _ : Json => (listProd ls).length := by
      funext a; simp
    rw [hconst, List.map_const', List.sum_replicate, smul_eq_mul, ih,
      List.map_cons, List.prod_cons]

theorem listProd_mem {ls : List (List Json)} {c : List Json} (h : c ∈ listProd ls) :
    c.length = ls.length ∧
      ∀ i (h1 : i < ls.length) (h2 : i < c.length),
        c.get ⟨i, h2⟩ ∈ ls.get ⟨i, h1⟩ := by
  induction ls generalizing c with
  | nil =>
    simp only [listProd, List.mem_singleton] at h
    subst h
    exact ⟨rfl, fun i h1 _ => absurd h1 (by simp)⟩
  | cons l ls ih =>
    simp only [listProd, List.mem_flatMap, List.mem_map] at h
    obtain ⟨x, hx, c', hc', rfl⟩ := h
    obtain ⟨hlen, hidx⟩ := ih hc'
    refine ⟨by simp [hlen], ?_⟩
    intro i h1 h2
    cases i with
    | zero => simpa using hx
    | succ n =>
      simpa using hidx n (by simpa using h1) (by simpa using h2)

theorem prod_map_ite_filter (p : Json → Bool) (g : Json → Nat) (items : List Json) :
    (items.map (fun it => if p it then g it else 1)).prod
      = ((items.filter p).map g).prod := by
  induction items with
  | nil => rfl
  | cons it rest ih =>
    by_cases h : p it
    · simp [List.filter_cons, h, ih]
    · simp [List.filter_cons, h, ih]

/-! ## Rename-path lemmas -/

theorem gcivLookup_some_inv {spec g : Json} (h : gcivLookup spec = some g) :
    ∃ skvs ckvs hkvs,
      spec = Json.obj skvs ∧
      lookupKey "components" skvs = some (Json.obj ckvs) ∧
      lookupKey "schemas" ckvs = some (Json.obj hkvs) ∧
      lookupKey "GlobalContractIdentifierView" hkvs = some g := by
  cases spec with
  | null => cases h
  | bool b => cases h
  | num n => cases h
  | str s => cases h
  | arr l => cases h
  | obj skvs =>
    cases hc : lookupKey "components" skvs with
    | none => simp [gcivLookup, hc] at h
    | some c =>
      cases c with
      | null => simp [gcivLookup, hc] at h
      | bool b => simp [gcivLookup, hc] at h
      | num n => simp [gcivLookup, hc] at h
      | str t => simp [gcivLookup, hc] at h
      | arr l => simp [gcivLookup, hc] at h
      | obj ckvs =>
        cases hs : lookupKey "schemas" ckvs with
        | none => simp [gcivLookup, hc, hs] at h
        | some s =>
          cases s with
          | null => simp [gcivLookup, hc, hs] at h
          | bool b => simp [gcivLookup, hc, hs] at h
          | num n => simp [gcivLookup, hc, hs] at h
          | str t => simp [gcivLookup, hc, hs] at h
          | arr l => simp [gcivLookup, hc, hs] at h
          | obj hkvs =>
            refine ⟨skvs, ckvs, hkvs, rfl, hc, hs, ?_⟩
            simpa [gcivLookup, hc, hs] using h

theorem gcivLookup_update {skvs : List (String × Json)} {ckvs hkvs : List (String × Json)}
    (g' : Json)
    (hc : lookupKey "components" skvs = some (Json.obj ckvs))
    (hs : lookupKey "schemas" ckvs = some (Json.obj hkvs)) :
    gcivUpdate (Json.obj skvs) g'
      = Json.obj (setKey "components" (Json.obj (setKey "schemas"
          (Json.obj (setKey "GlobalContractIdentifierView" g' hkvs)) ckvs)) skvs) ∧
    gcivLookup (gcivUpdate (Json.obj skvs) g') = some g' := by
  have h1 : gcivUpdate (Json.obj skvs) g'
      = Json.obj (setKey "components" (Json.obj (setKey "schemas"
          (Json.obj (setKey "GlobalContractIdentifierView" g' hkvs)) ckvs)) skvs) := by
    simp only [gcivUpdate, hc, hs]
  refine ⟨h1, ?_⟩
  rw [h1]
  simp only [gcivLookup, lookup_setKey_self]

/-! ## Claim theorems -/

/-- C1: expanding a node whose `allOf` list has `oneOf`-bearing elements
replaces `allOf` by a `oneOf` whose list has exactly the product of the
`oneOf` sizes over the bearing elements; each entry is `{"allOf": combo}`
with one chosen alternative per bearing element, in the original element
order, and every non-bearing element included unchanged as itself; in
particular the spec's worked example rewrites as stated. -/
theorem C1_reconstruct (kvs : List (String × Json)) (items : List Json)
    (hall : lookupKey "allOf" kvs = some (Json.arr items))
    (_hcount : 2 ≤ items.countP (fun it => pyContains "oneOf" it))
    (hbear : ∀ it ∈ items, pyContains "oneOf" it = true → ∃ l, pyGetOneOf it = Json.arr l) :
    (∃ newOneOf : List Json,
      reconstructAllOfOneOf kvs = setKey "oneOf" (Json.arr newOneOf) (eraseKey "allOf" kvs) ∧
      newOneOf.length
        = ((items.filter (fun it => pyContains "oneOf" it)).map
            (fun it => (pyElems (pyGetOneOf it)).length)).prod ∧
      ∀ e ∈ newOneOf, ∃ combo : List Json,
        e = Json.obj [("allOf", Json.arr combo)] ∧
        combo.length = items.length ∧
        ∀ i (h1 : i < items.length) (h2 : i < combo.length),
          (pyContains "oneOf" (items.get ⟨i, h1⟩) = true →
            ∃ l, pyGetOneOf (items.get ⟨i, h1⟩) = Json.arr l ∧ combo.get ⟨i, h2⟩ ∈ l) ∧
          (pyContains "oneOf" (items.get ⟨i, h1⟩) = false →
            combo.get ⟨i, h2⟩ = items.get ⟨i, h1⟩)) ∧
    reconstructAllOfOneOf exampleKvs = exampleOutKvs := by
  refine ⟨⟨(listProd (items.map (fun it =>
      if pyContains "oneOf" it then pyElems (pyGetOneOf it) else [it]))).map
      (fun combo => Json.obj [("allOf", Json.arr combo)]), ?_, ?_, ?_⟩, rfl⟩
  · simp only [reconstructAllOfOneOf, hall, Option.getD_some]
    rfl
  · rw [List.length_map, listProd_length, List.map_map]
    have hc : (List.length ∘ fun it =>
        if pyContains "oneOf" it then pyElems (pyGetOneOf it) else [it])
        = fun it => if pyContains "oneOf" it then (pyElems (pyGetOneOf it)).length else 1 := by
      funext it
      by_cases h : pyContains "oneOf" it <;> simp [h]
    rw [hc, prod_map_ite_filter]
  · intro e he
    rw [List.mem_map] at he
    obtain ⟨combo, hc, rfl⟩ := he
    obtain ⟨hlen, hidx⟩ := listProd_mem hc
    rw [List.length_map] at hlen
    refine ⟨combo, rfl, hlen, ?_⟩
    intro i h1 h2
    have hls : i < (items.map (fun it =>
        if pyContains "oneOf" it then pyElems (pyGetOneOf it) else [it])).length := by
      simpa using h1
    have hmem := hidx i hls h2
    have hmap : (items.map (fun it =>
        if pyContains "oneOf" it then pyElems (pyGetOneOf it) else [it])).get ⟨i, hls⟩
        = (fun it => if pyContains "oneOf" it then pyElems (pyGetOneOf it) else [it])
            (items.get ⟨i, h1⟩) := by
      simp [List.get_eq_getElem]
    rw [hmap] at hmem
    constructor
    · intro hp
      obtain ⟨l, hl⟩ := hbear _ (items.get_mem i h1) hp
      refine ⟨l, hl, ?_⟩
      simp only [List.get_eq_getElem] at hp hl
      simpa [hp, hl, pyElems] using hmem
    · intro hp
      simp only [List.get_eq_getElem] at hp
      simpa [hp] using hmem

/-- C1 witness: the worked example, via the theorem. -/
theorem C1_reconstruct_witness : reconstructAllOfOneOf exampleKvs = exampleOutKvs := by
  have h := C1_reconstruct exampleKvs
    [Json.obj [("oneOf", Json.arr [Json.obj [("type", Json.str "A")]])],
     Json.obj [("oneOf", Json.arr
       [Json.obj [("type", Json.str "B")], Json.obj [("type", Json.str "C")]])]]
    rfl (by decide)
    (by
      intro it hit hp
      simp only [List.mem_cons, List.not_mem_nil, or_false] at hit
      rcases hit with rfl | rfl
      · exact ⟨[Json.obj [("type", Json.str "A")]], rfl⟩
      · exact ⟨[Json.obj [("type", Json.str "B")], Json.obj [("type", Json.str "C")]], rfl⟩)
  exact h.2

/-- C2: the code at the failing input.  One walk over `nonIdemDoc` leaves the
root as a conflicting node (its `allOf` still has two `oneOf`-bearing
elements, the second created by the nested child's rewrite), and a second
walk changes the document again — so the walk is not idempotent, contrary to
the spec's idempotence requirement. -/
theorem C2_walk_not_idempotent :
    iterate_nested_json_for_loop 20 nonIdemDoc = nonIdemAfterOne ∧
    rootConflict nonIdemAfterOne = true ∧
    iterate_nested_json_for_loop 20 (iterate_nested_json_for_loop 20 nonIdemDoc)
      ≠ iterate_nested_json_for_loop 20 nonIdemDoc := by
  refine ⟨rfl, rfl, fun h => absurd (congrArg topKeys h) (by decide)⟩

/-- C3 counterexample: on `nestedConflictDoc "a" "b"` one walk does *not*
produce the output predicted by the claim (combination entry left with its
conflicting `allOf`): the walk descends into the freshly built `oneOf` list
and expands the new combination entry in the same pass. -/
theorem C3_counterexample :
    iterate_nested_json_for_loop 20 (nestedConflictDoc "a" "b")
      = nestedConflictExpanded "a" "b" ∧
    iterate_nested_json_for_loop 20 (nestedConflictDoc "a" "b")
      ≠ nestedConflictClaimOut := by
  refine ⟨rfl, fun h =>
    absurd (congrArg (fun j => topKeys (firstOneOfEntry j)) h) (by decide)⟩

/-- C3 amended: after a conflicting node is rewritten, the walk's item loop
runs over the node's post-rewrite key/value pairs, so it *does* descend into
the newly produced `oneOf` list, and a newly built combination entry that
itself has an `allOf` with two `oneOf`-bearing elements *is* expanded in the
same pass (for any alternative payloads `a`, `b` and any sufficient
fuel). -/
theorem C3_walk_descends (a b : String) (f : Nat) (hf : 12 ≤ f) :
    iterate_nested_json_for_loop f (nestedConflictDoc a b)
      = nestedConflictExpanded a b := by
  obtain ⟨m, rfl⟩ : ∃ m, f = m + 12 := ⟨f - 12, by omega⟩
  rfl

/-- C3 amended witness. -/
theorem C3_walk_descends_witness :
    12 ≤ 12 ∧
    iterate_nested_json_for_loop 12 (nestedConflictDoc "x" "y")
      = nestedConflictExpanded "x" "y" :=
  ⟨by decide, C3_walk_descends "x" "y" 12 (by decide)⟩

/-- C5: the `GlobalContractIdentifierView` rename is idempotent (running it
on its own successful output returns that output unchanged), it moves the
`anyOf` value to `oneOf` unchanged (and removes `anyOf`), and it is a no-op
on a document whose entry passes the membership test without an `anyOf`
key. -/
theorem C5_rename (spec spec' : Json) (h : renameGciv spec = Except.ok spec') :
    renameGciv spec' = Except.ok spec' ∧
    (∀ gkvs v, gcivLookup spec = some (Json.obj gkvs) → lookupKey "anyOf" gkvs = some v →
      ∃ gkvs', gcivLookup spec' = some (Json.obj gkvs') ∧
        lookupKey "oneOf" gkvs' = some v ∧ lookupKey "anyOf" gkvs' = none) ∧
    (∀ g, gcivLookup spec = some g → pyContains "anyOf" g = false → spec' = spec) := by
  cases hg : gcivLookup spec with
  | none => simp [renameGciv, hg] at h
  | some g =>
    cases g with
    | null => simp [renameGciv, hg] at h
    | bool b => simp [renameGciv, hg] at h
    | num n => simp [renameGciv, hg] at h
    | obj gkvs =>
      cases ha : lookupKey "anyOf" gkvs with
      | some v =>
        simp only [renameGciv, hg, ha] at h
        rw [Except.ok.injEq] at h
        obtain ⟨skvs, ckvs, hkvs, rfl, hc, hs, hgc⟩ := gcivLookup_some_inv hg
        obtain ⟨hupd, hlook⟩ :=
          gcivLookup_update (Json.obj (setKey "oneOf" v (eraseKey "anyOf" gkvs))) hc hs
        subst h
        have honeOf : lookupKey "oneOf" (setKey "oneOf" v (eraseKey "anyOf" gkvs)) = some v :=
          lookup_setKey_self _ _ _
        have hanyOf : lookupKey "anyOf" (setKey "oneOf" v (eraseKey "anyOf" gkvs)) = none := by
          rw [lookup_setKey_ne _ _ _ _ (by decide), lookup_erase_self]
        refine ⟨?_, ?_, ?_⟩
        · simp only [renameGciv, hlook, hanyOf]
        · intro gkvs0 v0 hq hv
          obtain rfl : gkvs = gkvs0 := by
            have h1 := Option.some.inj hq
            cases h1; rfl
          have hv' := ha.symm.trans hv
          obtain rfl := Option.some.inj hv'
          exact ⟨setKey "oneOf" v (eraseKey "anyOf" gkvs), hlook, honeOf, hanyOf⟩
        · intro g0 hq hpc
          obtain rfl := Option.some.inj hq
          have hnone : lookupKey "anyOf" gkvs = none :=
            (lookup_none_iff_hasKey_false _ _).2 (by simpa [pyContains] using hpc)
          cases hnone.symm.trans ha
      | none =>
        simp only [renameGciv, hg, ha] at h
        rw [Except.ok.injEq] at h
        subst h
        refine ⟨by simp only [renameGciv, hg, ha], ?_, fun _ _ _ => rfl⟩
        intro gkvs0 v0 hq hv
        obtain rfl : gkvs = gkvs0 := by
          have h1 := Option.some.inj hq
          cases h1; rfl
        cases ha.symm.trans hv
    | arr l =>
      have hre : renameGciv spec
          = if pyContains "anyOf" (Json.arr l) then Except.error () else Except.ok spec := by
        simp [renameGciv, hg]
      rw [hre] at h
      by_cases hpc : pyContains "anyOf" (Json.arr l) = true
      · rw [if_pos hpc] at h; cases h
      · rw [if_neg hpc] at h
        rw [Except.ok.injEq] at h
        subst h
        refine ⟨by rw [hre, if_neg hpc], ?_, fun _ _ _ => rfl⟩
        intro gkvs0 v0 hq hv
        have h1 := Option.some.inj hq
        cases h1
    | str s =>
      have hre : renameGciv spec
          = if pyContains "anyOf" (Json.str s) then Except.error () else Except.ok spec := by
        simp [renameGciv, hg]
      rw [hre] at h
      by_cases hpc : pyContains "anyOf" (Json.str s) = true
      · rw [if_pos hpc] at h; cases h
      · rw [if_neg hpc] at h
        rw [Except.ok.injEq] at h
        subst h
        refine ⟨by rw [hre, if_neg hpc], ?_, fun _ _ _ => rfl⟩
        intro gkvs0 v0 hq hv
        have h1 := Option.some.inj hq
        cases h1

/-- C5 witness: a concrete document with the entry and an `anyOf` key; the
rename produces `gcivSpecOut` and is a fixed point there. -/
theorem C5_rename_witness :
    renameGciv gcivSpecIn = Except.ok gcivSpecOut ∧
    renameGciv gcivSpecOut = Except.ok gcivSpecOut :=
  ⟨rfl, (C5_rename gcivSpecIn gcivSpecOut rfl).1⟩

/-- C9: a document without the `components → schemas →
GlobalContractIdentifierView` path (or with a non-dict on the way) makes the
unconditional rename raise, and the whole run fails before the document is
ever written back — the rename is not treated as a no-op. -/
theorem C9_missing_path (spec : Json) (argv : List String) (fuel : Nat)
    (hg : gcivLookup spec = none) :
    renameGciv spec = Except.error () ∧ runMain argv fuel spec = Except.error () := by
  have h1 : renameGciv spec = Except.error () := by simp [renameGciv, hg]
  exact ⟨h1, by simp [runMain, h1]⟩

/-- C9 witness: the empty document. -/
theorem C9_missing_path_witness :
    gcivLookup (Json.obj []) = none ∧
    renameGciv (Json.obj []) = Except.error () ∧
    runMain ["prog"] 5 (Json.obj []) = Except.error () :=
  ⟨rfl, (C9_missing_path (Json.obj []) ["prog"] 5 rfl).1,
    (C9_missing_path (Json.obj []) ["prog"] 5 rfl).2⟩

/-- C8 counterexample: under `--spec-fix` the mode-specific work (the
composition-expansion walk) runs *before* the document is re-serialized, so
the rename-and-dump does not precede all mode-specific work as the claim
states. -/
theorem C8_counterexample :
    mainTrace ["prog", "--spec-fix"] = [MainEv.rename, MainEv.walk, MainEv.dump] ∧
    evPos MainEv.walk (mainTrace ["prog", "--spec-fix"])
      < evPos MainEv.dump (mainTrace ["prog", "--spec-fix"]) :=
  ⟨rfl, by decide⟩

/-- C8 amended: in every invocation mode the rename runs first and the
document is re-serialized (`indent=4`); the expansion walk runs exactly under
`--spec-fix`, after the rename and *before* serialization (the serialized
document is the walked one); the Source Splitter runs exactly under
`--lib-fix`, after serialization; the two flag modes are mutually
exclusive. -/
theorem C8_modes (argv : List String) (spec spec1 : Json) (fuel : Nat)
    (h : renameGciv spec = Except.ok spec1) :
    (mainTrace argv).head? = some MainEv.rename ∧
    MainEv.dump ∈ mainTrace argv ∧
    (MainEv.walk ∈ mainTrace argv ↔ specFixMode argv = true) ∧
    (MainEv.split ∈ mainTrace argv ↔ libFixMode argv = true) ∧
    ¬(specFixMode argv = true ∧ libFixMode argv = true) ∧
    (specFixMode argv = true →
      evPos MainEv.rename (mainTrace argv) < evPos MainEv.walk (mainTrace argv) ∧
      evPos MainEv.walk (mainTrace argv) < evPos MainEv.dump (mainTrace argv)) ∧
    (libFixMode argv = true →
      evPos MainEv.dump (mainTrace argv) < evPos MainEv.split (mainTrace argv)) ∧
    runMain argv fuel spec = Except.ok
      ⟨if specFixMode argv then iterate_nested_json_for_loop fuel spec1 else spec1,
        4, specFixMode argv, libFixMode argv⟩ := by
  have hex : ¬(specFixMode argv = true ∧ libFixMode argv = true) := by
    rintro ⟨h1, h2⟩
    rcases argv with _ | ⟨a, _ | ⟨b, _ | ⟨c, rest⟩⟩⟩
    · simp [specFixMode] at h1
    · simp [specFixMode] at h1
    · simp [specFixMode] at h1
      simp [libFixMode] at h2
      subst h1
      exact absurd h2 (by decide)
    · simp [specFixMode] at h1
  have hrun : runMain argv fuel spec = Except.ok
      ⟨if specFixMode argv then iterate_nested_json_for_loop fuel spec1 else spec1,
        4, specFixMode argv, libFixMode argv⟩ := by
    simp [runMain, h]
  cases hsf : specFixMode argv with
  | false =>
    cases hlf : libFixMode argv with
    | false =>
      have htr : mainTrace argv = [MainEv.rename, MainEv.dump] := by
        simp [mainTrace, hsf, hlf]
      rw [htr]
      rw [hsf, hlf] at hrun
      exact ⟨rfl, by decide, by decide, by decide, by decide, by decide, by decide, hrun⟩
    | true =>
      have htr : mainTrace argv = [MainEv.rename, MainEv.dump, MainEv.split] := by
        simp [mainTrace, hsf, hlf]
      rw [htr]
      rw [hsf, hlf] at hrun
      exact ⟨rfl, by decide, by decide, by decide, by decide, by decide, by decide, hrun⟩
  | true =>
    cases hlf : libFixMode argv with
    | false =>
      have htr : mainTrace argv = [MainEv.rename, MainEv.walk, MainEv.dump] := by
        simp [mainTrace, hsf, hlf]
      rw [htr]
      rw [hsf, hlf] at hrun
      exact ⟨rfl, by decide, by decide, by decide, by decide, by decide, by decide, hrun⟩
    | true => exact absurd ⟨hsf, hlf⟩ hex

/-- C8 amended witness: the `--lib-fix` invocation on a concrete document. -/
theorem C8_modes_witness :
    evPos MainEv.dump (mainTrace ["prog", "--lib-fix"])
      < evPos MainEv.split (mainTrace ["prog", "--lib-fix"]) ∧
    runMain ["prog", "--lib-fix"] 5 gcivSpecIn = Except.ok
      ⟨if specFixMode ["prog", "--lib-fix"] then
          iterate_nested_json_for_loop 5 gcivSpecOut
        else gcivSpecOut,
        4, specFixMode ["prog", "--lib-fix"], libFixMode ["prog", "--lib-fix"]⟩ :=
  ⟨(C8_modes ["prog", "--lib-fix"] gcivSpecIn gcivSpecOut 5 rfl).2.2.2.2.2.2.1 (by decide),
   (C8_modes ["prog", "--lib-fix"] gcivSpecIn gcivSpecOut 5 rfl).2.2.2.2.2.2.2⟩

/-- Index returned by a successful `str.find` is within the buffer. -/
theorem findSub_le_length {needle hay : List Char} {i : Int}
    (h : findSub needle hay = i) (h0 : 0 ≤ i) : i.toNat ≤ hay.length := by
  unfold findSub at h
  split at h
  next j hf =>
    have hj := List.mem_range.mp (List.mem_of_find?_eq_some hf)
    omega
  next => omega

/-- C6: when the types anchor occurs (`types_index ≥ 0`) and the client
anchor occurs no earlier, the initial slicing yields three contiguous,
non-overlapping regions whose concatenation is the whole buffer, with the
region boundaries exactly at the two anchor indices. -/
theorem C6_split (buf : List Char) (ti ci : Int)
    (hti : findSub typesStartAnchor.data buf = ti)
    (hci : findSub clientStartAnchor.data buf = ci)
    (h0 : 0 ≤ ti) (hle : ti ≤ ci) :
    ∃ d t c, splitLib buf = (d, t, c) ∧
      d ++ t ++ c = buf ∧
      d.length = ti.toNat ∧
      t.length = ci.toNat - ti.toNat ∧
      c.length = buf.length - ci.toNat := by
  have hciN : ci.toNat ≤ buf.length := findSub_le_length hci (le_trans h0 hle)
  have htiN : ti.toNat ≤ buf.length := by omega
  have hpt : pyIdx buf.length ti = ti.toNat := by
    unfold pyIdx; rw [if_neg (by omega)]; omega
  have hpc : pyIdx buf.length ci = ci.toNat := by
    unfold pyIdx; rw [if_neg (by omega)]; omega
  have hp0 : pyIdx buf.length 0 = 0 := by
    unfold pyIdx; rw [if_neg (by omega)]; simp
  have hplen : pyIdx buf.length (buf.length : Int) = buf.length := by
    unfold pyIdx; rw [if_neg (by omega)]; omega
  refine ⟨buf.take ti.toNat, (buf.take ci.toNat).drop ti.toNat, buf.drop ci.toNat,
    ?_, ?_, ?_, ?_, ?_⟩
  · simp only [splitLib, hti, hci, pySlice, hpt, hpc, hp0, hplen, List.drop_zero,
      List.take_length]
  · have h1 : buf.take ti.toNat ++ (buf.take ci.toNat).drop ti.toNat = buf.take ci.toNat := by
      have h2 : buf.take ti.toNat = (buf.take ci.toNat).take ti.toNat := by
        rw [List.take_take, min_eq_left (by omega)]
      rw [h2, List.take_append_drop]
    rw [h1, List.take_append_drop]
  · rw [List.length_take, min_eq_left htiN]
  · rw [List.length_drop, List.length_take, min_eq_left hciN]
  · rw [List.length_drop]

/-- C6 witness: a buffer made of the two anchors back to back. -/
theorem C6_split_witness :
    findSub typesStartAnchor.data anchorDemoBuf = 0 ∧
    findSub clientStartAnchor.data anchorDemoBuf = (typesStartAnchor.data.length : Int) ∧
    ∃ d t c, splitLib anchorDemoBuf = (d, t, c) ∧
      d ++ t ++ c = anchorDemoBuf ∧
      d.length = (0 : Int).toNat ∧
      t.length = ((typesStartAnchor.data.length : Int)).toNat - (0 : Int).toNat ∧
      c.length = anchorDemoBuf.length - ((typesStartAnchor.data.length : Int)).toNat :=
  ⟨by decide, by decide,
    C6_split anchorDemoBuf 0 (typesStartAnchor.data.length : Int)
      (by decide) (by decide) (by decide) (by decide)⟩

/-- C7: a missing anchor yields the `-1` sentinel from `str.find` and the
slicing still completes, silently producing degenerate regions: with the
types anchor missing the "dependencies" region is the whole buffer except
its last character (not the prefix before any anchor); with the client
anchor missing the "client" region is just the last character; with both
missing the "types" region is empty. -/
theorem C7_missing_anchor (buf : List Char) :
    (findSub typesStartAnchor.data buf = -1 →
      (splitLib buf).1 = buf.take (buf.length - 1)) ∧
    (findSub clientStartAnchor.data buf = -1 →
      (splitLib buf).2.2 = buf.drop (buf.length - 1)) ∧
    (findSub typesStartAnchor.data buf = -1 → findSub clientStartAnchor.data buf = -1 →
      splitLib buf
        = (buf.take (buf.length - 1), [], buf.drop (buf.length - 1))) := by
  have hm1 : pyIdx buf.length (-1) = buf.length - 1 := by
    unfold pyIdx; rw [if_pos (by omega)]; omega
  have hp0 : pyIdx buf.length 0 = 0 := by
    unfold pyIdx; rw [if_neg (by omega)]; simp
  have hplen : pyIdx buf.length (buf.length : Int) = buf.length := by
    unfold pyIdx; rw [if_neg (by omega)]; omega
  have hmid : (buf.take (buf.length - 1)).drop (buf.length - 1) = [] :=
    List.drop_eq_nil_of_le (by rw [List.length_take]; omega)
  refine ⟨?_, ?_, ?_⟩
  · intro h1
    simp only [splitLib, h1, pySlice, hm1, hp0, List.drop_zero]
  · intro h2
    simp only [splitLib, h2, pySlice, hm1, hplen, List.take_length]
  · intro h1 h2
    simp only [splitLib, h1, h2, pySlice, hm1, hp0, hplen, List.drop_zero,
      List.take_length, hmid]

/-- C7 witness: a buffer containing neither anchor. -/
theorem C7_missing_anchor_witness :
    findSub typesStartAnchor.data noAnchorBuf = -1 ∧
    findSub clientStartAnchor.data noAnchorBuf = -1 ∧
    splitLib noAnchorBuf
      = (noAnchorBuf.take (noAnchorBuf.length - 1), [],
         noAnchorBuf.drop (noAnchorBuf.length - 1)) :=
  ⟨by decide, by decide, (C7_missing_anchor noAnchorBuf).2.2 (by decide) (by decide)⟩

/-- `list.index` returns ValueError exactly when the element is absent. -/
theorem pyListIndex_not_mem {x : String} {l : List String} (h : x ∉ l) :
    pyListIndex x l = Except.error () := by
  induction l with
  | nil => rfl
  | cons y ys ih =>
    have h1 : x ∉ ys := fun hm => h (List.mem_cons_of_mem y hm)
    have h2 : (y == x) = false := by
      simp only [beq_eq_false_iff_ne, ne_eq]
      intro he
      exact h (by rw [he]; exact List.mem_cons_self x ys)
    simp [pyListIndex, h2, ih h1]

/-- `list.index` returns the index of the first occurrence. -/
theorem pyListIndex_first {x : String} {l : List String} {i : Nat}
    (hi : i < l.length) (hx : l.get ⟨i, hi⟩ = x)
    (hfirst : ∀ j (hj : j < l.length), j < i → l.get ⟨j, hj⟩ ≠ x) :
    pyListIndex x l = Except.ok i := by
  induction l generalizing i with
  | nil => exact absurd hi (by simp)
  | cons y ys ih =>
    cases i with
    | zero =>
      have hy : y = x := hx
      simp [pyListIndex, hy]
    | succ n =>
      have hn : n < ys.length := by simpa using hi
      have h2 : (y == x) = false := by
        simp only [beq_eq_false_iff_ne, ne_eq]
        have hy := hfirst 0 (by simp) (Nat.succ_pos n)
        simpa using hy
      have hrec : pyListIndex x ys = Except.ok n := by
        apply ih hn
        · simpa using hx
        · intro j hj hji
          have := hfirst (j + 1) (by simpa using hj) (Nat.succ_lt_succ hji)
          simpa using this
      simp [pyListIndex, h2, hrec]

/-- C10: the readme extraction errors (Python ValueError, terminating the
script — unlike the silent missing-anchor cases) when no line equals the
marker line exactly; when the marker occurs, exactly the lines strictly
before its first occurrence are prepended, each prefixed with `//!`. -/
theorem C10_readme (lines : List String) (clientLib : String) :
    (markerLine ∉ lines → prependClientDocs lines clientLib = Except.error ()) ∧
    (∀ i (hi : i < lines.length), lines.get ⟨i, hi⟩ = markerLine →
      (∀ j (hj : j < lines.length), j < i → lines.get ⟨j, hj⟩ ≠ markerLine) →
      prependClientDocs lines clientLib
        = Except.ok (String.intercalate "\n"
            ((lines.take i).map (fun l => "//!" ++ l)) ++ clientLib)) := by
  constructor
  · intro h
    have h1 : pyListIndex markerLine lines = Except.error () := pyListIndex_not_mem h
    simp [prependClientDocs, h1]
  · intro i hi hx hfirst
    have h1 : pyListIndex markerLine lines = Except.ok i := pyListIndex_first hi hx hfirst
    simp [prependClientDocs, h1]

/-- C10 witness: a readme with the marker as its second line. -/
theorem C10_readme_witness :
    prependClientDocs ["# near-openapi\n", markerLine, "cargo test\n"] "client"
      = Except.ok (String.intercalate "\n"
          (((["# near-openapi\n", markerLine, "cargo test\n"] : List String).take 1).map
            (fun l => "//!" ++ l)) ++ "client") :=
  (C10_readme ["# near-openapi\n", markerLine, "cargo test\n"] "client").2 1 (by decide) rfl
    (by
      intro j hj hji
      have hj0 : j = 0 := by omega
      subst hj0
      show ("# near-openapi\n" : String) ≠ markerLine
      decide)

/-- C4: for a derive-attribute match on an enum named
`RpcRequestValidationErrorKind` or `<CamelCase>Error` (not starting with
`JsonRpcResponseFor`), the replacement always appends `thiserror::Error` to
the stripped derive list, and appends `strum_macros::Display` exactly when
the Display scan over the buffer did not record the name; nothing else in
the match is changed. -/
theorem C4_derives (buffer g0 g1 g2 g3 g4 : String)
    (h : g4.startsWith "JsonRpcResponseFor" = false) :
    add_error_derives (findDisplayNames buffer) g0 g1 g2 g3 g4
      = "#[derive(" ++
          (if (findDisplayNames buffer).contains g4 then
            rstripComma (rstripWS g1) ++ ", thiserror::Error"
          else
            rstripComma (rstripWS g1) ++ ", thiserror::Error, strum_macros::Display")
          ++ ")]" ++ g2 ++ g3 ++ "pub enum " ++ g4 ∧
    SubStr ", thiserror::Error"
      (add_error_derives (findDisplayNames buffer) g0 g1 g2 g3 g4) ∧
    ((findDisplayNames buffer).contains g4 = false →
      SubStr "strum_macros::Display"
        (add_error_derives (findDisplayNames buffer) g0 g1 g2 g3 g4)) := by
  have heq : add_error_derives (findDisplayNames buffer) g0 g1 g2 g3 g4
      = "#[derive(" ++
          (if (findDisplayNames buffer).contains g4 then
            rstripComma (rstripWS g1) ++ ", thiserror::Error"
          else
            rstripComma (rstripWS g1) ++ ", thiserror::Error, strum_macros::Display")
          ++ ")]" ++ g2 ++ g3 ++ "pub enum " ++ g4 := by
    simp only [add_error_derives, h, Bool.false_eq_true, if_false]
  refine ⟨heq, ?_, ?_⟩
  · rw [heq]
    by_cases hc : (findDisplayNames buffer).contains g4
    · rw [if_pos hc]
      exact ⟨"#[derive(" ++ rstripComma (rstripWS g1),
        ")]" ++ g2 ++ g3 ++ "pub enum " ++ g4, by simp only [String.append_assoc]⟩
    · rw [if_neg hc]
      refine ⟨"#[derive(" ++ rstripComma (rstripWS g1),
        ", strum_macros::Display" ++ ")]" ++ g2 ++ g3 ++ "pub enum " ++ g4, ?_⟩
      have hsplit : (", thiserror::Error, strum_macros::Display" : String)
          = ", thiserror::Error" ++ ", strum_macros::Display" := by decide
      rw [hsplit]
      simp only [String.append_assoc]
  · intro hc
    rw [heq, if_neg (by rw [hc]; simp)]
    refine ⟨"#[derive(" ++ rstripComma (rstripWS g1) ++ ", thiserror::Error, ",
      ")]" ++ g2 ++ g3 ++ "pub enum " ++ g4, ?_⟩
    have hsplit : (", thiserror::Error, strum_macros::Display" : String)
        = ", thiserror::Error, " ++ "strum_macros::Display" := by decide
    rw [hsplit]
    simp only [String.append_assoc]

/-- C4 witness: a buffer recording a Display impl for `FooError` only; the
match on `BarError` gets both traits appended. -/
theorem C4_derives_witness :
    SubStr ", thiserror::Error"
      (add_error_derives (findDisplayNames "impl ::std::fmt::Display for FooError")
        "w" "Clone, Debug, " "\n" "    " "BarError") ∧
    SubStr "strum_macros::Display"
      (add_error_derives (findDisplayNames "impl ::std::fmt::Display for FooError")
        "w" "Clone, Debug, " "\n" "    " "BarError") :=
  ⟨(C4_derives "impl ::std::fmt::Display for FooError"
      "w" "Clone, Debug, " "\n" "    " "BarError" (by decide)).2.1,
   (C4_derives "impl ::std::fmt::Display for FooError"
      "w" "Clone, Debug, " "\n" "    " "BarError" (by decide)).2.2 (by decide)⟩

end ProgenitorFixes
